import Mathlib

/-!
Verification of a lightweight chess engine for frontend-only move validation.

The engine is embedded shallowly: the board is a total function from integer
coordinates to optional pieces (the source guards every off-board array read
with an `inside` bounds check, so a total function with `none` off the board
is observationally identical), machine numbers become `Int`, and the
source's while-loop over a sliding ray becomes fuel-based recursion with
fuel 8 (a ray from any square contains at most 8 consecutive on-board
squares, so fuel 8 reproduces the loop exactly).

Per the source's `Move` typedef, the `promotion` field can only carry the
fixed marker value Q, so it is embedded as a `Bool`; `applyMove` places a
queen when the marker is set, exactly as the source does with the marker's
literal value.

A second, heap-based model of the mutating operations (`clonePositionH`,
`applyMoveH`, `makeMoveH`, `generateLegalMovesH`) makes the source's
array-mutation story explicit in order to state the frame property that the
argument position is never mutated: rows live in a heap (a list of row
functions), a position object holds row addresses, cloning allocates fresh
rows, and writes hit only the freshly allocated rows.
-/

inductive Color where
  | w : Color
  | b : Color
deriving DecidableEq

inductive PieceType where
  | K : PieceType
  | Q : PieceType
  | R : PieceType
  | B : PieceType
  | N : PieceType
  | P : PieceType
deriving DecidableEq

structure Piece where
  color : Color
  type : PieceType
deriving DecidableEq

structure Square where
  r : Int
  c : Int
deriving DecidableEq

/-- `promotion` is the source typedef's fixed marker (only the value Q exists);
`captured` is the informational captured-piece field. -/
structure Move where
  fromSq : Square
  toSq : Square
  promotion : Bool
  captured : Option Piece
deriving DecidableEq

/-- The 8x8 grid of optional pieces; a total function standing for the
source's bounds-guarded array. -/
structure Position where
  board : Int → Int → Option Piece

def FILES : List Char := ['a', 'b', 'c', 'd', 'e', 'f', 'g', 'h']

def opposite (color : Color) : Color :=
  match color with
  | Color.w => Color.b
  | Color.b => Color.w

def getPieceColor (piece : Option Piece) : Option Color :=
  piece.map Piece.color

def pieceTypeStr (t : PieceType) : String :=
  match t with
  | PieceType.K => "K"
  | PieceType.Q => "Q"
  | PieceType.R => "R"
  | PieceType.B => "B"
  | PieceType.N => "N"
  | PieceType.P => "P"

/-- Convert a 2-character algebraic name such as e4 to coordinates: the first
character selects the file via lookup in FILES (JS indexOf yields -1 when
absent), the second character is read as a digit and the row is 8 - rank. -/
def parseSquare (algebraic : String) : Square :=
  let file := algebraic.data.headD ' '
  let rankChar := (algebraic.data.drop 1).headD ' '
  let rank : Int := (rankChar.toNat : Int) - 48
  let c : Int := ((FILES.findIdx? (fun ch => ch = file)).map (fun n => (n : Int))).getD (-1)
  { r := 8 - rank, c := c }

/-- Convert coordinates to algebraic form; an off-board file stringifies the
way JS stringifies undefined. -/
def squareToAlgebraic (sq : Square) : String :=
  (if 0 ≤ sq.c ∧ sq.c < 8 then String.mk [FILES.getD sq.c.toNat 'a'] else "undefined")
    ++ toString (8 - sq.r)

def inside (r c : Int) : Prop :=
  0 ≤ r ∧ r < 8 ∧ 0 ≤ c ∧ c < 8

instance (r c : Int) : Decidable (inside r c) := by
  unfold inside; infer_instance

def backRank (color : Color) : List Piece :=
  [ { color := color, type := PieceType.R },
    { color := color, type := PieceType.N },
    { color := color, type := PieceType.B },
    { color := color, type := PieceType.Q },
    { color := color, type := PieceType.K },
    { color := color, type := PieceType.B },
    { color := color, type := PieceType.N },
    { color := color, type := PieceType.R } ]

def initRow (r : Int) : List (Option Piece) :=
  if r = 0 then (backRank Color.b).map some
  else if r = 1 then List.replicate 8 (some { color := Color.b, type := PieceType.P })
  else if r = 6 then List.replicate 8 (some { color := Color.w, type := PieceType.P })
  else if r = 7 then (backRank Color.w).map some
  else List.replicate 8 none

/-- Black back rank at row 0, black pawns at row 1, white pawns at row 6,
white back rank at row 7. -/
def createInitialPosition : Position :=
  { board := fun r c => if inside r c then (initRow r).getD c.toNat none else none }

/-- A deep copy of the board; in the pure model this is the identity on
contents, while `clonePositionH` below models the allocation behavior. -/
def clonePosition (position : Position) : Position :=
  { board := fun r c => position.board r c }

def allSquares : List Square :=
  (List.range 8).flatMap (fun r => (List.range 8).map (fun c => Square.mk (r : Int) (c : Int)))

def findKing (position : Position) (color : Color) : Option Square :=
  allSquares.find? (fun sq =>
    match position.board sq.r sq.c with
    | some p => decide (p.color = color ∧ p.type = PieceType.K)
    | none => false)

def isEmpty (position : Position) (r c : Int) : Prop :=
  position.board r c = none

instance (position : Position) (r c : Int) : Decidable (isEmpty position r c) := by
  unfold isEmpty; infer_instance

def isEnemy (position : Position) (r c : Int) (color : Color) : Prop :=
  ∃ p, position.board r c = some p ∧ p.color ≠ color

instance (position : Position) (r c : Int) (color : Color) :
    Decidable (isEnemy position r c color) := by
  unfold isEnemy
  match h : position.board r c with
  | none => exact Decidable.isFalse (by simp [h])
  | some p => exact decidable_of_iff (p.color ≠ color) (by simp [h])

def pushIfValid (position : Position) (fromSq : Square) (r c : Int) (color : Color) :
    List Move :=
  if inside r c then
    match position.board r c with
    | none => [Move.mk fromSq (Square.mk r c) false none]
    | some target =>
        if target.color ≠ color then [Move.mk fromSq (Square.mk r c) false (some target)]
        else []
  else []

/-- One ray of the sliding generator: the source's while-loop, with fuel 8
(at most 8 consecutive on-board squares exist along any nonzero direction). -/
def genRay (position : Position) (color : Color) (fromSq : Square) (dr dc : Int) :
    Nat → Int → Int → List Move
  | 0, _, _ => []
  | fuel + 1, r, c =>
    if inside r c then
      match position.board r c with
      | none =>
          Move.mk fromSq (Square.mk r c) false none ::
            genRay position color fromSq dr dc fuel (r + dr) (c + dc)
      | some target =>
          if target.color ≠ color then [Move.mk fromSq (Square.mk r c) false (some target)]
          else []
    else []

def genSliding (position : Position) (fromSq : Square) (color : Color)
    (deltas : List (Int × Int)) : List Move :=
  deltas.flatMap (fun d =>
    genRay position color fromSq d.1 d.2 8 (fromSq.r + d.1) (fromSq.c + d.2))

def knightDeltas : List (Int × Int) :=
  [(-2, -1), (-2, 1), (-1, -2), (-1, 2), (1, -2), (1, 2), (2, -1), (2, 1)]

def bishopDeltas : List (Int × Int) :=
  [(-1, -1), (-1, 1), (1, -1), (1, 1)]

def rookDeltas : List (Int × Int) :=
  [(-1, 0), (1, 0), (0, -1), (0, 1)]

def queenDeltas : List (Int × Int) :=
  [(-1, -1), (-1, 1), (1, -1), (1, 1), (-1, 0), (1, 0), (0, -1), (0, 1)]

def kingDeltas : List (Int × Int) :=
  [(-1, -1), (-1, 0), (-1, 1), (0, -1), (0, 1), (1, -1), (1, 0), (1, 1)]

def slidingDeltas (t : PieceType) : List (Int × Int) :=
  match t with
  | PieceType.B => bishopDeltas
  | PieceType.R => rookDeltas
  | PieceType.Q => queenDeltas
  | _ => []

def pawnMoves (position : Position) (fromSq : Square) (color : Color) : List Move :=
  let dir : Int := if color = Color.w then -1 else 1
  let startRow : Int := if color = Color.w then 6 else 1
  let r1 := fromSq.r + dir
  let fwd :=
    if inside r1 fromSq.c ∧ isEmpty position r1 fromSq.c then
      (if r1 = 0 ∨ r1 = 7 then [Move.mk fromSq (Square.mk r1 fromSq.c) true none]
       else [Move.mk fromSq (Square.mk r1 fromSq.c) false none]) ++
      (let r2 := fromSq.r + 2 * dir
       if fromSq.r = startRow ∧ inside r2 fromSq.c ∧ isEmpty position r2 fromSq.c then
         [Move.mk fromSq (Square.mk r2 fromSq.c) false none]
       else [])
    else []
  let caps := [(-1 : Int), 1].flatMap (fun dc =>
    let rc := fromSq.c + dc
    if inside r1 rc ∧ isEnemy position r1 rc color then
      match position.board r1 rc with
      | some captured =>
          if r1 = 0 ∨ r1 = 7 then [Move.mk fromSq (Square.mk r1 rc) true (some captured)]
          else [Move.mk fromSq (Square.mk r1 rc) false (some captured)]
      | none => []
    else [])
  fwd ++ caps

def pseudoLegalMovesForSquare (position : Position) (fromSq : Square) : List Move :=
  match position.board fromSq.r fromSq.c with
  | none => []
  | some piece =>
    match piece.type with
    | PieceType.P => pawnMoves position fromSq piece.color
    | PieceType.N => knightDeltas.flatMap (fun d =>
        pushIfValid position fromSq (fromSq.r + d.1) (fromSq.c + d.2) piece.color)
    | PieceType.B => genSliding position fromSq piece.color bishopDeltas
    | PieceType.R => genSliding position fromSq piece.color rookDeltas
    | PieceType.Q => genSliding position fromSq piece.color queenDeltas
    | PieceType.K => kingDeltas.flatMap (fun d =>
        pushIfValid position fromSq (fromSq.r + d.1) (fromSq.c + d.2) piece.color)

/-- Pawn attack geometry: a pawn attacks the two diagonally-forward squares
regardless of occupancy (the source checks coordinates only). -/
def pawnAttacks (byColor : Color) (r c : Int) (sq : Square) : Bool :=
  let dir : Int := if byColor = Color.w then -1 else 1
  decide ((r + dir = sq.r ∧ c - 1 = sq.c) ∨ (r + dir = sq.r ∧ c + 1 = sq.c))

def attacksFrom (position : Position) (sq : Square) (byColor : Color) (r c : Int) : Bool :=
  match position.board r c with
  | none => false
  | some p =>
    if p.color = byColor then
      if p.type = PieceType.P then pawnAttacks byColor r c sq
      else (pseudoLegalMovesForSquare position (Square.mk r c)).any
        (fun m => decide (m.toSq.r = sq.r ∧ m.toSq.c = sq.c))
    else false

def isSquareAttacked (position : Position) (sq : Square) (byColor : Color) : Bool :=
  allSquares.any (fun s => attacksFrom position sq byColor s.r s.c)

def inCheck (position : Position) (color : Color) : Bool :=
  match findKing position color with
  | none => false
  | some kingSq => isSquareAttacked position kingSq (opposite color)

def setSq (position : Position) (r c : Int) (p : Option Piece) : Position :=
  { board := fun r' c' => if r' = r ∧ c' = c then p else position.board r' c' }

def applyMove (position : Position) (move : Move) : Position :=
  let next := clonePosition position
  let piece := next.board move.fromSq.r move.fromSq.c
  let cleared := setSq next move.fromSq.r move.fromSq.c none
  let placed : Option Piece :=
    match piece with
    | some p =>
        if p.type = PieceType.P ∧ move.promotion = true then
          some { color := p.color, type := PieceType.Q }
        else some p
    | none => none
  setSq cleared move.toSq.r move.toSq.c placed

def wouldLeaveKingInCheck (position : Position) (move : Move) (moverColor : Color) : Bool :=
  inCheck (applyMove position move) moverColor

def pieceLetter (pieceType : PieceType) : String :=
  if pieceType = PieceType.P then "" else pieceTypeStr pieceType

def moveToSANLike (position : Position) (move : Move) : String :=
  match position.board move.fromSq.r move.fromSq.c with
  | none => squareToAlgebraic move.fromSq ++ "-" ++ squareToAlgebraic move.toSq
  | some piece =>
    let captureMark := if move.captured.isSome then "x" else "-"
    let promo := if move.promotion then "=Q" else ""
    pieceLetter piece.type ++ squareToAlgebraic move.fromSq ++ captureMark ++
      squareToAlgebraic move.toSq ++ promo

def makeMove (position : Position) (move : Move) : Position × String :=
  (applyMove position move, moveToSANLike position move)

def generateLegalMoves (position : Position) (turn : Color) : List Move :=
  allSquares.flatMap (fun sq =>
    match position.board sq.r sq.c with
    | none => []
    | some p =>
      if p.color = turn then
        (pseudoLegalMovesForSquare position sq).filter
          (fun mv => ! wouldLeaveKingInCheck position mv turn)
      else [])

/-- The position from the spec's stalemate scenario: black king a8 (0,0),
white king a6 (2,0), white pawn b6 (2,1), all other squares empty. -/
def stalemateClaimPos : Position :=
  { board := fun r c =>
      if r = 0 ∧ c = 0 then some { color := Color.b, type := PieceType.K }
      else if r = 2 ∧ c = 0 then some { color := Color.w, type := PieceType.K }
      else if r = 2 ∧ c = 1 then some { color := Color.w, type := PieceType.P }
      else none }

/-- The canonical king-and-pawn stalemate actually realized: black king a8,
white king a6, white pawn a7 (row 1, col 0). -/
def stalemateAmendedPos : Position :=
  { board := fun r c =>
      if r = 0 ∧ c = 0 then some { color := Color.b, type := PieceType.K }
      else if r = 2 ∧ c = 0 then some { color := Color.w, type := PieceType.K }
      else if r = 1 ∧ c = 0 then some { color := Color.w, type := PieceType.P }
      else none }

/-- The fool's-mate position reached from the initial position by applying
1.f3 e5 2.g4 Qh4 via applyMove. -/
def foolsMatePos : Position :=
  applyMove
    (applyMove
      (applyMove
        (applyMove createInitialPosition
          (Move.mk (Square.mk 6 5) (Square.mk 5 5) false none))
        (Move.mk (Square.mk 1 4) (Square.mk 3 4) false none))
      (Move.mk (Square.mk 6 6) (Square.mk 4 6) false none))
    (Move.mk (Square.mk 0 3) (Square.mk 4 7) false none)

/-- A promotion demo position: white pawn a7, white king e1, black king h8. -/
def promoDemoPos : Position :=
  { board := fun r c =>
      if r = 1 ∧ c = 0 then some { color := Color.w, type := PieceType.P }
      else if r = 7 ∧ c = 4 then some { color := Color.w, type := PieceType.K }
      else if r = 0 ∧ c = 7 then some { color := Color.b, type := PieceType.K }
      else none }

/-- A lone white king on a1. -/
def kingOnlyPos : Position :=
  { board := fun r c =>
      if r = 7 ∧ c = 0 then some { color := Color.w, type := PieceType.K } else none }

/-- A white rook on e4 with a black pawn two squares to its right on g4. -/
def rookDemoPos : Position :=
  { board := fun r c =>
      if r = 4 ∧ c = 4 then some { color := Color.w, type := PieceType.R }
      else if r = 4 ∧ c = 6 then some { color := Color.b, type := PieceType.P }
      else none }

/-- A board holding a single white pawn and no king of either color. -/
def pawnOnlyPos : Position :=
  { board := fun r c =>
      if r = 3 ∧ c = 3 then some { color := Color.w, type := PieceType.P } else none }

/-!
Heap model of the mutating operations. A row of the board is a mutable array
cell; the heap is the list of all allocated rows; a position object holds the
addresses of its 8 rows. `clonePositionH` allocates fresh rows at the end of
the heap (copying contents), and `applyMoveH` writes only to those fresh
rows, which is what makes the argument position observably immutable.
-/

abbrev Row : Type := Int → Option Piece

def emptyRow : Row := fun _ => none

abbrev Heap : Type := List Row

def readRowH (h : Heap) (a : Nat) : Row := h.getD a emptyRow

/-- Mutate one cell of the row stored at address `a` (a no-op off the heap,
which our theorems' well-formedness hypotheses rule out). -/
def writeCell (h : Heap) (a : Nat) (c : Int) (v : Option Piece) : Heap :=
  h.set a (fun c' => if c' = c then v else readRowH h a c')

structure HPos where
  rows : List Nat

def readBoardH (h : Heap) (p : HPos) : Position :=
  { board := fun r c =>
      if 0 ≤ r then
        match p.rows[r.toNat]? with
        | some a => readRowH h a c
        | none => none
      else none }

/-- Allocate a fresh copy of every row of `p` at the end of the heap. -/
def clonePositionH (h : Heap) (p : HPos) : Heap × HPos :=
  (h ++ p.rows.map (fun a => readRowH h a),
   { rows := (List.range p.rows.length).map (fun i => h.length + i) })

def rowAddr (p : HPos) (r : Int) (dflt : Nat) : Nat :=
  if 0 ≤ r then p.rows.getD r.toNat dflt else dflt

def applyMoveH (h : Heap) (p : HPos) (mv : Move) : Heap × HPos :=
  let cl := clonePositionH h p
  let h1 := cl.1
  let np := cl.2
  let piece := (readBoardH h1 np).board mv.fromSq.r mv.fromSq.c
  let h2 := writeCell h1 (rowAddr np mv.fromSq.r h1.length) mv.fromSq.c none
  let placed : Option Piece :=
    match piece with
    | some pc =>
        if pc.type = PieceType.P ∧ mv.promotion = true then
          some { color := pc.color, type := PieceType.Q }
        else some pc
    | none => none
  let h3 := writeCell h2 (rowAddr np mv.toSq.r h1.length) mv.toSq.c placed
  (h3, np)

def makeMoveH (h : Heap) (p : HPos) (mv : Move) : (Heap × HPos) × String :=
  (applyMoveH h p mv, moveToSANLike (readBoardH h p) mv)

def wouldLeaveKingInCheckH (h : Heap) (p : HPos) (mv : Move) (moverColor : Color) :
    Heap × Bool :=
  let next := applyMoveH h p mv
  (next.1, inCheck (readBoardH next.1 next.2) moverColor)

def legalStepH (p : HPos) (turn : Color) (acc : Heap × List Move) (sq : Square) :
    Heap × List Move :=
  let position := readBoardH acc.1 p
  match position.board sq.r sq.c with
  | none => acc
  | some pc =>
    if pc.color = turn then
      (pseudoLegalMovesForSquare position sq).foldl (fun acc2 mv =>
        let res := wouldLeaveKingInCheckH acc2.1 p mv turn
        (res.1, if res.2 = false then acc2.2 ++ [mv] else acc2.2)) acc
    else acc

def generateLegalMovesH (h : Heap) (p : HPos) (turn : Color) : Heap × List Move :=
  allSquares.foldl (legalStepH p turn) (h, [])

/-- Heap extension: the new heap keeps every previously allocated row intact. -/
def HeapExt (h h' : Heap) : Prop :=
  h.length ≤ h'.length ∧ ∀ a, a < h.length → readRowH h' a = readRowH h a

/-- A demo heap for the frame-property witness: 7 empty rows and a back row
holding a white king on e1. -/
def demoKingRow : Row := fun c => if c = 4 then some { color := Color.w, type := PieceType.K } else none

def demoHeap : Heap := List.replicate 7 emptyRow ++ [demoKingRow]

def demoHPos : HPos := { rows := List.range 8 }

/-- The demo king's one-step advance from e1 to e2. -/
def demoMove : Move := Move.mk (Square.mk 7 4) (Square.mk 6 4) false none

/-- A square of the ray from fromSq in direction d, j steps out. -/
def raySq (fromSq : Square) (d : Int × Int) (j : Nat) : Square :=
  Square.mk (fromSq.r + (j : Int) * d.1) (fromSq.c + (j : Int) * d.2)

def insideSq (sq : Square) : Prop := inside sq.r sq.c

instance (sq : Square) : Decidable (insideSq sq) := by
  unfold insideSq; infer_instance

/-- The first k squares of the ray (1 step out through k steps out) are all
on the board and empty. -/
def pathClear (position : Position) (fromSq : Square) (d : Int × Int) (k : Nat) : Prop :=
  ∀ j : Nat, j < k → insideSq (raySq fromSq d (j + 1)) ∧
    position.board (raySq fromSq d (j + 1)).r (raySq fromSq d (j + 1)).c = none

instance (position : Position) (fromSq : Square) (d : Int × Int) (k : Nat) :
    Decidable (pathClear position fromSq d k) := by
  unfold pathClear; infer_instance

lemma mem_generateLegalMoves {position : Position} {turn : Color} {mv : Move}
    (h : mv ∈ generateLegalMoves position turn) :
    ∃ sq p, position.board sq.r sq.c = some p ∧ p.color = turn ∧
      mv ∈ pseudoLegalMovesForSquare position sq ∧
      wouldLeaveKingInCheck position mv turn = false := by
  unfold generateLegalMoves at h
  rw [List.mem_flatMap] at h
  obtain ⟨sq, _, hmem⟩ := h
  cases hb : position.board sq.r sq.c with
  | none => rw [hb] at hmem; simp at hmem
  | some p =>
    rw [hb] at hmem
    simp only at hmem
    by_cases hc : p.color = turn
    · rw [if_pos hc] at hmem
      rw [List.mem_filter] at hmem
      exact ⟨sq, p, hb, hc, hmem.1, by simpa using hmem.2⟩
    · rw [if_neg hc] at hmem; simp at hmem

/-- C1: every move returned by generateLegalMoves, once applied via
applyMove, yields a position in which the mover's king square (as located by
findKing) is not attacked by the opposing color according to
isSquareAttacked. -/
theorem generateLegalMoves_king_safe (position : Position) (turn : Color) (mv : Move)
    (kingSq : Square) (hmv : mv ∈ generateLegalMoves position turn)
    (hking : findKing (applyMove position mv) turn = some kingSq) :
    isSquareAttacked (applyMove position mv) kingSq (opposite turn) = false := by
  obtain ⟨sq, p, hb, hc, hps, hsafe⟩ := mem_generateLegalMoves hmv
  unfold wouldLeaveKingInCheck inCheck at hsafe
  rw [hking] at hsafe
  exact hsafe

/-- Witness for C1: the lone white king on a1 can step to a2, and the
resulting position leaves the relocated king unattacked. -/
theorem generateLegalMoves_king_safe_witness :
    Move.mk (Square.mk 7 0) (Square.mk 6 0) false none ∈
      generateLegalMoves kingOnlyPos Color.w ∧
    findKing (applyMove kingOnlyPos (Move.mk (Square.mk 7 0) (Square.mk 6 0) false none))
      Color.w = some (Square.mk 6 0) ∧
    isSquareAttacked
      (applyMove kingOnlyPos (Move.mk (Square.mk 7 0) (Square.mk 6 0) false none))
      (Square.mk 6 0) (opposite Color.w) = false :=
  ⟨by decide, by decide,
    generateLegalMoves_king_safe kingOnlyPos Color.w
      (Move.mk (Square.mk 7 0) (Square.mk 6 0) false none) (Square.mk 6 0)
      (by decide) (by decide)⟩

/-- C2 counterexample: in the claimed position (black king a8, white king a6,
white pawn b6, black to move) the legal-move list is not empty - the retreat
to b8 is legal, because neither the white king on a6 nor the pawn on b6
attacks b8. -/
theorem stalemate_claim_counterexample :
    ¬ (generateLegalMoves stalemateClaimPos Color.b = [] ∧
       inCheck stalemateClaimPos Color.b = false) := by decide

/-- C2 amended: with the white pawn on a7 instead of b6 (the position that
actually realizes the canonical king-and-pawn stalemate), black to move has
no legal move and is not in check. -/
theorem stalemate_amended :
    generateLegalMoves stalemateAmendedPos Color.b = [] ∧
    inCheck stalemateAmendedPos Color.b = false := by decide

/-- C3: from the initial position white has exactly 20 legal moves - 8 single
pawn pushes (row 6 to row 5), 8 double pawn pushes (row 6 to row 4) and 4
knight moves (from the back rank, row 7) - and none of them carries a
captured piece. -/
theorem initial_moves_twenty :
    (generateLegalMoves createInitialPosition Color.w).length = 20 ∧
    (generateLegalMoves createInitialPosition Color.w).countP
      (fun mv => decide (mv.fromSq.r = 6 ∧ mv.toSq.r = 5)) = 8 ∧
    (generateLegalMoves createInitialPosition Color.w).countP
      (fun mv => decide (mv.fromSq.r = 6 ∧ mv.toSq.r = 4)) = 8 ∧
    (generateLegalMoves createInitialPosition Color.w).countP
      (fun mv => decide (mv.fromSq.r = 7)) = 4 ∧
    ∀ mv ∈ generateLegalMoves createInitialPosition Color.w, mv.captured = none := by
  decide

/-- C4: in the fool's-mate position reached by 1.f3 e5 2.g4 Qh4, white has no
legal move and white is in check. -/
theorem foolsmate_no_moves_and_check :
    generateLegalMoves foolsMatePos Color.w = [] ∧
    inCheck foolsMatePos Color.w = true := by decide

/-- C6: converting any in-bounds square to algebraic form and parsing it back
yields the original square. -/
theorem parse_algebraic_roundtrip (r c : Int) (hr0 : 0 ≤ r) (hr : r < 8)
    (hc0 : 0 ≤ c) (hc : c < 8) :
    parseSquare (squareToAlgebraic (Square.mk r c)) = Square.mk r c := by
  interval_cases r <;> interval_cases c <;> decide

/-- Witness for C6 at the concrete square e4, coordinates (4, 4). -/
theorem parse_algebraic_roundtrip_witness :
    (0 : Int) ≤ 4 ∧ (4 : Int) < 8 ∧
    parseSquare (squareToAlgebraic (Square.mk 4 4)) = Square.mk 4 4 :=
  ⟨by decide, by decide,
    parse_algebraic_roundtrip 4 4 (by decide) (by decide) (by decide) (by decide)⟩

/-- C8: when the origin square holds a piece, the notation returned by
makeMove is exactly piece-letter prefix (empty for a pawn), then the origin
square in algebraic form, then x when a captured piece is recorded and -
otherwise, then the destination square, then the promotion suffix when the
move carries the promotion marker. -/
theorem makeMove_san_format (position : Position) (mv : Move) (p : Piece)
    (h : position.board mv.fromSq.r mv.fromSq.c = some p) :
    (makeMove position mv).2 =
      (if p.type = PieceType.P then "" else pieceTypeStr p.type) ++
      squareToAlgebraic mv.fromSq ++
      (if mv.captured.isSome then "x" else "-") ++
      squareToAlgebraic mv.toSq ++
      (if mv.promotion then "=Q" else "") := by
  unfold makeMove moveToSANLike pieceLetter
  rw [h]

/-- Witness for C8: the knight move b1-c3 from the initial position renders
as Nb1-c3. -/
theorem makeMove_san_format_witness :
    createInitialPosition.board 7 1 = some { color := Color.w, type := PieceType.N } ∧
    (makeMove createInitialPosition
      (Move.mk (Square.mk 7 1) (Square.mk 5 2) false none)).2 = "Nb1-c3" :=
  ⟨by decide,
    (makeMove_san_format createInitialPosition
      (Move.mk (Square.mk 7 1) (Square.mk 5 2) false none)
      { color := Color.w, type := PieceType.N } (by decide)).trans (by decide)⟩

/-- C9: a position holding no king of the given color on any board square is
never reported in check. -/
theorem inCheck_without_king_false (position : Position) (color : Color)
    (h : ∀ sq ∈ allSquares,
      position.board sq.r sq.c ≠ some { color := color, type := PieceType.K }) :
    inCheck position color = false := by
  have hnone : findKing position color = none := by
    apply List.find?_eq_none.mpr
    intro sq hsq
    cases hb : position.board sq.r sq.c with
    | none => simp [hb]
    | some p =>
      simp only [hb, decide_eq_true_eq]
      rintro ⟨h1, h2⟩
      exact h sq hsq (by rw [hb]; cases p; simp_all)
  unfold inCheck
  rw [hnone]

/-- Witness for C9: a board holding only a white pawn has no white king and
is not in check. -/
theorem inCheck_without_king_false_witness :
    (∀ sq ∈ allSquares,
      pawnOnlyPos.board sq.r sq.c ≠ some { color := Color.w, type := PieceType.K }) ∧
    inCheck pawnOnlyPos Color.w = false :=
  ⟨by decide, inCheck_without_king_false pawnOnlyPos Color.w (by decide)⟩

lemma genRay_fromSq {position : Position} {color : Color} {fromSq : Square} {dr dc : Int} :
    ∀ (fuel : Nat) (r c : Int) (mv : Move),
      mv ∈ genRay position color fromSq dr dc fuel r c → mv.fromSq = fromSq := by
  intro fuel
  induction fuel with
  | zero => intro r c mv h; simp [genRay] at h
  | succ n ih =>
    intro r c mv h
    simp only [genRay] at h
    split at h
    · split at h
      · rcases List.mem_cons.mp h with h1 | h2
        · rw [h1]
        · exact ih _ _ _ h2
      · split at h
        · simp at h; rw [h]
        · simp at h
    · simp at h

lemma mem_pawnMoves_fromSq {position : Position} {sq : Square} {color : Color} {mv : Move}
    (h : mv ∈ pawnMoves position sq color) : mv.fromSq = sq := by
  unfold pawnMoves at h
  cases color <;> simp at h <;>
    rcases h with ⟨-, h | ⟨-, h⟩⟩ | ⟨-, h⟩ | ⟨-, h⟩ <;>
    first
      | rw [h]
      | (split at h <;>
          first
            | (simp at h; rw [h])
            | (split at h <;> (simp at h; rw [h]))
            | simp at h)

lemma pseudo_fromSq {position : Position} {sq : Square} {mv : Move}
    (h : mv ∈ pseudoLegalMovesForSquare position sq) : mv.fromSq = sq := by
  unfold pseudoLegalMovesForSquare at h
  cases hb : position.board sq.r sq.c with
  | none => rw [hb] at h; simp at h
  | some piece =>
    rw [hb] at h
    simp only at h
    cases hty : piece.type <;> rw [hty] at h
    case K | N =>
      rw [List.mem_flatMap] at h
      obtain ⟨d, _, h⟩ := h
      unfold pushIfValid at h
      split at h
      · split at h
        · simp at h; rw [h]
        · split at h
          · simp at h; rw [h]
          · simp at h
      · simp at h
    case Q | R | B =>
      unfold genSliding at h
      rw [List.mem_flatMap] at h
      obtain ⟨d, _, h⟩ := h
      exact genRay_fromSq _ _ _ _ h
    case P => exact mem_pawnMoves_fromSq h

lemma pawn_row1_white_promo {position : Position} {c0 : Int} {mv : Move}
    (hb : position.board 1 c0 = some { color := Color.w, type := PieceType.P })
    (h : mv ∈ pseudoLegalMovesForSquare position (Square.mk 1 c0)) :
    mv.promotion = true := by
  unfold pseudoLegalMovesForSquare at h
  rw [show (Square.mk 1 c0).r = 1 from rfl, show (Square.mk 1 c0).c = c0 from rfl, hb] at h
  simp only at h
  unfold pawnMoves at h
  simp at h
  rcases h with ⟨-, h⟩ | ⟨-, h⟩ | ⟨-, h⟩
  · rw [h]
  all_goals
    split at h <;> first | (simp at h; rw [h]) | simp at h

/-- C7: any legal move of a white pawn standing on row 1 whose destination
lies on row 0 places a white queen on the destination square, and the
notation string carries the =Q promotion suffix. -/
theorem pawn_promotion_queen (position : Position) (c0 : Int) (mv : Move)
    (hp : position.board 1 c0 = some { color := Color.w, type := PieceType.P })
    (hmem : mv ∈ generateLegalMoves position Color.w)
    (hfrom : mv.fromSq = Square.mk 1 c0)
    (_hto : mv.toSq.r = 0) :
    (applyMove position mv).board mv.toSq.r mv.toSq.c =
      some { color := Color.w, type := PieceType.Q } ∧
    ∃ s : String, (makeMove position mv).2 = s ++ "=Q" := by
  obtain ⟨sq, p, hb, hc, hps, -⟩ := mem_generateLegalMoves hmem
  have hsq : sq = Square.mk 1 c0 := by rw [← pseudo_fromSq hps, hfrom]
  subst hsq
  have hpromo : mv.promotion = true := pawn_row1_white_promo hp hps
  have hbread : position.board mv.fromSq.r mv.fromSq.c =
      some { color := Color.w, type := PieceType.P } := by rw [hfrom]; exact hp
  constructor
  · simp [applyMove, clonePosition, setSq, hbread, hpromo]
  · refine ⟨pieceLetter PieceType.P ++ squareToAlgebraic mv.fromSq ++
      (if mv.captured.isSome then "x" else "-") ++ squareToAlgebraic mv.toSq, ?_⟩
    unfold makeMove moveToSANLike
    rw [hbread, hpromo]
    simp

/-- Witness for C7: in the promotion demo position the pawn move a7-a8
promotes to a white queen and its notation ends in =Q. -/
theorem pawn_promotion_queen_witness :
    promoDemoPos.board 1 0 = some { color := Color.w, type := PieceType.P } ∧
    Move.mk (Square.mk 1 0) (Square.mk 0 0) true none ∈
      generateLegalMoves promoDemoPos Color.w ∧
    ((applyMove promoDemoPos (Move.mk (Square.mk 1 0) (Square.mk 0 0) true none)).board 0 0 =
      some { color := Color.w, type := PieceType.Q } ∧
     ∃ s : String,
       (makeMove promoDemoPos (Move.mk (Square.mk 1 0) (Square.mk 0 0) true none)).2 =
         s ++ "=Q") :=
  ⟨by decide, by decide,
    pawn_promotion_queen promoDemoPos 0 (Move.mk (Square.mk 1 0) (Square.mk 0 0) true none)
      (by decide) (by decide) rfl rfl⟩

lemma ray_step (x d : Int) (j : Nat) :
    x + d + (j : Int) * d = x + ((j + 1 : Nat) : Int) * d := by
  push_cast; ring

lemma genRay_mem_iff (position : Position) (color : Color) (fromSq : Square) (dr dc : Int) :
    ∀ (fuel : Nat) (r c : Int) (mv : Move),
      mv ∈ genRay position color fromSq dr dc fuel r c ↔
      ∃ k : Nat, k < fuel ∧
        (∀ j : Nat, j < k → inside (r + (j : Int) * dr) (c + (j : Int) * dc) ∧
          position.board (r + (j : Int) * dr) (c + (j : Int) * dc) = none) ∧
        inside (r + (k : Int) * dr) (c + (k : Int) * dc) ∧
        ((position.board (r + (k : Int) * dr) (c + (k : Int) * dc) = none ∧
            mv = Move.mk fromSq (Square.mk (r + (k : Int) * dr) (c + (k : Int) * dc)) false none) ∨
         (∃ t, position.board (r + (k : Int) * dr) (c + (k : Int) * dc) = some t ∧
            t.color ≠ color ∧
            mv = Move.mk fromSq (Square.mk (r + (k : Int) * dr) (c + (k : Int) * dc)) false
              (some t))) := by
  intro fuel
  induction fuel with
  | zero => intro r c mv; simp [genRay]
  | succ n ih =>
    intro r c mv
    simp only [genRay]
    by_cases hin : inside r c
    · rw [if_pos hin]
      cases hb : position.board r c with
      | none =>
        constructor
        · intro h
          rcases List.mem_cons.mp h with h1 | h2
          · refine ⟨0, Nat.succ_pos n, by omega, by simpa using hin, Or.inl ⟨by simpa using hb, by simpa using h1⟩⟩
          · obtain ⟨k, hk, hpath, hins, hshape⟩ := (ih (r + dr) (c + dc) mv).mp h2
            refine ⟨k + 1, by omega, ?_, ?_, ?_⟩
            · intro j hj
              cases j with
              | zero =>
                simp only [Nat.cast_zero, zero_mul, add_zero]
                exact ⟨hin, hb⟩
              | succ j' =>
                have hstep := hpath j' (by omega)
                rw [ray_step r dr j', ray_step c dc j'] at hstep
                exact hstep
            · have := hins
              rw [ray_step r dr k, ray_step c dc k] at this
              exact this
            · have := hshape
              rw [ray_step r dr k, ray_step c dc k] at this
              exact this
        · rintro ⟨k, hk, hpath, hins, hshape⟩
          cases k with
          | zero =>
            rcases hshape with ⟨-, hmv⟩ | ⟨t, hbt, -, -⟩
            · simp only [Nat.cast_zero, zero_mul, add_zero] at hmv
              exact List.mem_cons.mpr (Or.inl hmv)
            · simp only [Nat.cast_zero, zero_mul, add_zero] at hbt
              rw [hb] at hbt
              cases hbt
          | succ k' =>
            apply List.mem_cons_of_mem
            rw [ih (r + dr) (c + dc) mv]
            refine ⟨k', by omega, ?_, ?_, ?_⟩
            · intro j hj
              have hstep := hpath (j + 1) (by omega)
              rw [← ray_step r dr j, ← ray_step c dc j] at hstep
              exact hstep
            · have := hins
              rw [← ray_step r dr k', ← ray_step c dc k'] at this
              exact this
            · have := hshape
              rw [← ray_step r dr k', ← ray_step c dc k'] at this
              exact this
      | some t =>
        constructor
        · intro h
          simp only at h
          by_cases ht : t.color ≠ color
          · rw [if_pos ht] at h
            simp only [List.mem_singleton] at h
            exact ⟨0, Nat.succ_pos n, by omega, by simpa using hin,
              Or.inr ⟨t, by simpa using hb, ht, by simpa using h⟩⟩
          · rw [if_neg ht] at h
            simp at h
        · rintro ⟨k, hk, hpath, hins, hshape⟩
          simp only
          cases k with
          | zero =>
            rcases hshape with ⟨hbn, -⟩ | ⟨t', hbt, ht', hmv⟩
            · simp only [Nat.cast_zero, zero_mul, add_zero] at hbn
              rw [hb] at hbn
              cases hbn
            · simp only [Nat.cast_zero, zero_mul, add_zero] at hbt hmv
              rw [hb] at hbt
              injection hbt with hbt
              subst hbt
              rw [if_pos ht']
              simp [hmv]
          | succ k' =>
            have := (hpath 0 (by omega)).2
            simp only [Nat.cast_zero, zero_mul, add_zero] at this
            rw [hb] at this
            cases this
    · rw [if_neg hin]
      simp only [List.not_mem_nil, false_iff]
      rintro ⟨k, hk, hpath, hins, hshape⟩
      cases k with
      | zero => exact hin (by simpa using hins)
      | succ k' => exact hin (by simpa using (hpath 0 (by omega)).1)

lemma ray_run_le_eight {fromSq : Square} {d : Int × Int} {k : Nat}
    (hd : d ∈ queenDeltas)
    (hpath : ∀ j : Nat, j < k → insideSq (raySq fromSq d (j + 1))) : k ≤ 8 := by
  by_contra hgt
  push_neg at hgt
  have h0 := hpath 0 (by omega)
  have h8 := hpath 8 (by omega)
  unfold queenDeltas at hd
  fin_cases hd <;> (simp [insideSq, inside, raySq] at h0 h8; omega)

lemma ray_disjoint {fromSq : Square} {d d' : Int × Int} {a b : Nat}
    (hd : d ∈ queenDeltas) (hd' : d' ∈ queenDeltas) (ha : 1 ≤ a) (hb : 1 ≤ b)
    (heq : raySq fromSq d a = raySq fromSq d' b) : d = d' ∧ a = b := by
  simp only [raySq, Square.mk.injEq] at heq
  obtain ⟨h1, h2⟩ := heq
  unfold queenDeltas at hd hd'
  fin_cases hd <;> fin_cases hd' <;> (norm_num at h1 h2) <;>
    first
      | (refine ⟨rfl, ?_⟩; omega)
      | (exfalso; omega)

lemma pseudo_sliding {position : Position} {fromSq : Square} {col : Color} {pt : PieceType}
    (hpt : pt = PieceType.B ∨ pt = PieceType.R ∨ pt = PieceType.Q)
    (hb : position.board fromSq.r fromSq.c = some { color := col, type := pt }) :
    pseudoLegalMovesForSquare position fromSq =
      genSliding position fromSq col (slidingDeltas pt) := by
  rcases hpt with rfl | rfl | rfl <;> (unfold pseudoLegalMovesForSquare; rw [hb]; exact rfl)

/-- C5: for a bishop, rook or queen, along each of its ray directions the
pseudo-legal generator emits a quiet move onto every successive empty
square, emits a capture onto the first occupied square exactly when that
square holds an enemy piece, emits nothing past a blocked square, and never
emits a move onto a square occupied by a piece of the mover's color. -/
theorem genSliding_ray_behavior
    (position : Position) (fromSq : Square) (col : Color) (pt : PieceType)
    (hpt : pt = PieceType.B ∨ pt = PieceType.R ∨ pt = PieceType.Q)
    (_hin : insideSq fromSq)
    (hpiece : position.board fromSq.r fromSq.c = some { color := col, type := pt })
    (d : Int × Int) (hd : d ∈ slidingDeltas pt) (k : Nat) (hk : 1 ≤ k) :
    (pathClear position fromSq d k →
       Move.mk fromSq (raySq fromSq d k) false none ∈
         pseudoLegalMovesForSquare position fromSq)
    ∧ (∀ t : Piece, pathClear position fromSq d (k - 1) →
         insideSq (raySq fromSq d k) →
         position.board (raySq fromSq d k).r (raySq fromSq d k).c = some t →
         t.color ≠ col →
         Move.mk fromSq (raySq fromSq d k) false (some t) ∈
           pseudoLegalMovesForSquare position fromSq)
    ∧ ((∃ j : Nat, j < k - 1 ∧ ¬ (insideSq (raySq fromSq d (j + 1)) ∧
          position.board (raySq fromSq d (j + 1)).r (raySq fromSq d (j + 1)).c = none)) →
         ∀ mv ∈ pseudoLegalMovesForSquare position fromSq, mv.toSq ≠ raySq fromSq d k)
    ∧ (∀ mv ∈ pseudoLegalMovesForSquare position fromSq, ∀ t : Piece,
         position.board mv.toSq.r mv.toSq.c = some t → t.color ≠ col) := by
  have hsubQ : ∀ x, x ∈ slidingDeltas pt → x ∈ queenDeltas := by
    intro x hx
    rcases hpt with rfl | rfl | rfl <;> revert hx <;>
      simp [slidingDeltas, bishopDeltas, rookDeltas, queenDeltas] <;> tauto
  have hdQ : d ∈ queenDeltas := hsubQ d hd
  rw [pseudo_sliding hpt hpiece]
  refine ⟨?_, ?_, ?_, ?_⟩
  · intro hclear
    have hk8 : k ≤ 8 := ray_run_le_eight hdQ (fun j hj => (hclear j hj).1)
    have hk1 : k - 1 + 1 = k := by omega
    unfold genSliding
    apply List.mem_flatMap.mpr
    refine ⟨d, hd, ?_⟩
    rw [genRay_mem_iff]
    refine ⟨k - 1, by omega, ?_, ?_, Or.inl ⟨?_, ?_⟩⟩
    · intro j hj
      rw [ray_step fromSq.r d.1 j, ray_step fromSq.c d.2 j]
      exact hclear j (by omega)
    · rw [ray_step fromSq.r d.1 (k - 1), ray_step fromSq.c d.2 (k - 1), hk1]
      have hcl := hclear (k - 1) (by omega)
      rw [hk1] at hcl
      exact hcl.1
    · rw [ray_step fromSq.r d.1 (k - 1), ray_step fromSq.c d.2 (k - 1), hk1]
      have hcl := hclear (k - 1) (by omega)
      rw [hk1] at hcl
      exact hcl.2
    · rw [ray_step fromSq.r d.1 (k - 1), ray_step fromSq.c d.2 (k - 1), hk1]
      rfl
  · intro t hclear hinss hbt ht
    have hall : ∀ j : Nat, j < k → insideSq (raySq fromSq d (j + 1)) := by
      intro j hj
      rcases Nat.lt_or_ge j (k - 1) with hlt | hge
      · exact (hclear j hlt).1
      · have hj1 : j = k - 1 := by omega
        subst hj1
        have hk1 : k - 1 + 1 = k := by omega
        rw [hk1]
        exact hinss
    have hk8 : k ≤ 8 := ray_run_le_eight hdQ hall
    have hk1 : k - 1 + 1 = k := by omega
    unfold genSliding
    apply List.mem_flatMap.mpr
    refine ⟨d, hd, ?_⟩
    rw [genRay_mem_iff]
    refine ⟨k - 1, by omega, ?_, ?_, Or.inr ⟨t, ?_, ht, ?_⟩⟩
    · intro j hj
      rw [ray_step fromSq.r d.1 j, ray_step fromSq.c d.2 j]
      exact hclear j hj
    · rw [ray_step fromSq.r d.1 (k - 1), ray_step fromSq.c d.2 (k - 1), hk1]
      exact hinss
    · rw [ray_step fromSq.r d.1 (k - 1), ray_step fromSq.c d.2 (k - 1), hk1]
      exact hbt
    · rw [ray_step fromSq.r d.1 (k - 1), ray_step fromSq.c d.2 (k - 1), hk1]
      rfl
  · rintro ⟨j0, hj0, hblock⟩ mv hmv heq
    unfold genSliding at hmv
    obtain ⟨d', hd'mem, hray⟩ := List.mem_flatMap.mp hmv
    rw [genRay_mem_iff] at hray
    obtain ⟨k', hk', hpath, hins, hshape⟩ := hray
    have htoSq : mv.toSq = raySq fromSq d' (k' + 1) := by
      rcases hshape with ⟨-, rfl⟩ | ⟨t, -, -, rfl⟩ <;>
        (simp only [raySq, Square.mk.injEq]; constructor <;> (push_cast; ring))
    rw [heq] at htoSq
    obtain ⟨hdd, hkk⟩ :=
      ray_disjoint hdQ (hsubQ d' hd'mem) hk (by omega) htoSq
    subst hdd
    have hstep := hpath j0 (by omega)
    rw [ray_step fromSq.r d.1 j0, ray_step fromSq.c d.2 j0] at hstep
    exact hblock ⟨hstep.1, hstep.2⟩
  · intro mv hmv t hbt
    unfold genSliding at hmv
    obtain ⟨d', hd'mem, hray⟩ := List.mem_flatMap.mp hmv
    rw [genRay_mem_iff] at hray
    obtain ⟨k', hk', hpath, hins, hshape⟩ := hray
    rcases hshape with ⟨hnone, rfl⟩ | ⟨t', hbt', hc', rfl⟩
    · simp only at hbt
      rw [hnone] at hbt
      cases hbt
    · simp only at hbt
      rw [hbt'] at hbt
      injection hbt with hbt
      exact hbt ▸ hc'

/-- Witness for C5: the white rook on e4 emits the quiet move to f4 (one
step right along direction (0, 1)) because that square is on the board and
empty. -/
theorem genSliding_ray_behavior_witness :
    pathClear rookDemoPos (Square.mk 4 4) (0, 1) 1 ∧
    Move.mk (Square.mk 4 4) (raySq (Square.mk 4 4) (0, 1) 1) false none ∈
      pseudoLegalMovesForSquare rookDemoPos (Square.mk 4 4) :=
  ⟨by decide,
    (genSliding_ray_behavior rookDemoPos (Square.mk 4 4) Color.w PieceType.R
      (Or.inr (Or.inl rfl)) (by decide) (by decide) (0, 1) (by decide) 1 (by decide)).1
      (by decide)⟩

lemma readRowH_writeCell_ne {h : Heap} {a a' : Nat} (hne : a ≠ a') (c : Int)
    (v : Option Piece) : readRowH (writeCell h a' c v) a = readRowH h a := by
  unfold readRowH writeCell
  rw [List.getD_eq_getElem?_getD, List.getD_eq_getElem?_getD,
    List.getElem?_set_ne (Ne.symm hne)]

lemma readRowH_writeCell_self {h : Heap} {a : Nat} (ha : a < h.length) (c : Int)
    (v : Option Piece) :
    readRowH (writeCell h a c v) a = fun c' => if c' = c then v else readRowH h a c' := by
  unfold readRowH writeCell
  rw [List.getD_eq_getElem?_getD, List.getElem?_set_self (by simpa using ha)]
  rfl

lemma readRowH_append_left {h : Heap} {xs : List Row} {a : Nat} (ha : a < h.length) :
    readRowH (h ++ xs) a = readRowH h a := by
  unfold readRowH
  rw [List.getD_eq_getElem?_getD, List.getD_eq_getElem?_getD, List.getElem?_append_left ha]

lemma clone_fst (h : Heap) (p : HPos) :
    (clonePositionH h p).1 = h ++ p.rows.map (fun a => readRowH h a) := rfl

lemma clone_fst_length (h : Heap) (p : HPos) :
    (clonePositionH h p).1.length = h.length + p.rows.length := by
  rw [clone_fst, List.length_append, List.length_map]

lemma clone_addr (h : Heap) (p : HPos) {i : Nat} (hi : i < p.rows.length) :
    ((clonePositionH h p).2).rows[i]? = some (h.length + i) := by
  show ((List.range p.rows.length).map (fun j => h.length + j))[i]? = some (h.length + i)
  rw [List.getElem?_map, List.getElem?_range hi]
  rfl

lemma clone_addr_none (h : Heap) (p : HPos) {i : Nat} (hi : p.rows.length ≤ i) :
    ((clonePositionH h p).2).rows[i]? = none := by
  show ((List.range p.rows.length).map (fun j => h.length + j))[i]? = none
  rw [List.getElem?_map, List.getElem?_len_le (by simpa using hi)]
  rfl

lemma clone_readRow (h : Heap) (p : HPos) {i : Nat} {a : Nat}
    (hrow : p.rows[i]? = some a) :
    readRowH (clonePositionH h p).1 (h.length + i) = readRowH h a := by
  have hi : i < p.rows.length := by
    by_contra hge
    rw [List.getElem?_len_le (by omega)] at hrow
    cases hrow
  rw [clone_fst]
  unfold readRowH
  rw [List.getD_eq_getElem?_getD,
    List.getElem?_append_right (by omega),
    show h.length + i - h.length = i from by omega,
    List.getElem?_map, hrow]
  rfl

lemma rowAddr_clone_ge (h : Heap) (p : HPos) (r : Int) :
    h.length ≤ rowAddr (clonePositionH h p).2 r ((clonePositionH h p).1.length) := by
  unfold rowAddr
  split
  · rw [List.getD_eq_getElem?_getD]
    rcases Nat.lt_or_ge r.toNat p.rows.length with hlt | hge
    · rw [clone_addr h p hlt]
      simp
    · rw [clone_addr_none h p hge]
      simp [clone_fst_length]
  · rw [clone_fst_length]
    omega

lemma rowAddr_clone_lt (h : Heap) (p : HPos) (r : Int) :
    rowAddr (clonePositionH h p).2 r ((clonePositionH h p).1.length) ≤
      h.length + p.rows.length := by
  unfold rowAddr
  split
  · rw [List.getD_eq_getElem?_getD]
    rcases Nat.lt_or_ge r.toNat p.rows.length with hlt | hge
    · rw [clone_addr h p hlt]
      simp
      omega
    · rw [clone_addr_none h p hge]
      simp [clone_fst_length]
  · rw [clone_fst_length]

lemma rowAddr_clone_eq (h : Heap) (p : HPos) {r : Int} (hr : 0 ≤ r)
    (hi : r.toNat < p.rows.length) (dflt : Nat) :
    rowAddr (clonePositionH h p).2 r dflt = h.length + r.toNat := by
  unfold rowAddr
  rw [if_pos hr, List.getD_eq_getElem?_getD, clone_addr h p hi]
  rfl

lemma heapExt_refl (h : Heap) : HeapExt h h := ⟨le_refl _, fun _ _ => rfl⟩

lemma heapExt_trans {h1 h2 h3 : Heap} (h12 : HeapExt h1 h2) (h23 : HeapExt h2 h3) :
    HeapExt h1 h3 :=
  ⟨le_trans h12.1 h23.1, fun a ha => (h23.2 a (lt_of_lt_of_le ha h12.1)).trans (h12.2 a ha)⟩

lemma length_writeCell (h : Heap) (a : Nat) (c : Int) (v : Option Piece) :
    (writeCell h a c v).length = h.length := by
  unfold writeCell
  rw [List.length_set]

lemma heapExt_applyMoveH (h : Heap) (p : HPos) (mv : Move) :
    HeapExt h (applyMoveH h p mv).1 := by
  have haF := rowAddr_clone_ge h p mv.fromSq.r
  have haT := rowAddr_clone_ge h p mv.toSq.r
  constructor
  · show h.length ≤ (applyMoveH h p mv).1.length
    simp only [applyMoveH]
    rw [length_writeCell, length_writeCell, clone_fst_length]
    omega
  · intro a ha
    show readRowH (applyMoveH h p mv).1 a = readRowH h a
    simp only [applyMoveH]
    rw [readRowH_writeCell_ne (by omega), readRowH_writeCell_ne (by omega),
      clone_fst, readRowH_append_left ha]

lemma readBoardH_heapExt {h h' : Heap} {p : HPos} (hext : HeapExt h h')
    (hwf : ∀ a ∈ p.rows, a < h.length) : readBoardH h' p = readBoardH h p := by
  unfold readBoardH
  congr 1
  funext r c
  by_cases hr : 0 ≤ r
  · rw [if_pos hr, if_pos hr]
    cases hrow : p.rows[r.toNat]? with
    | none => rfl
    | some a =>
      show readRowH h' a c = readRowH h a c
      rw [hext.2 a (hwf a (List.getElem?_mem hrow))]
  · rw [if_neg hr, if_neg hr]

lemma clone_readBoard (h : Heap) (p : HPos) :
    readBoardH (clonePositionH h p).1 (clonePositionH h p).2 = readBoardH h p := by
  unfold readBoardH
  congr 1
  funext r c
  by_cases hr : 0 ≤ r
  · rw [if_pos hr, if_pos hr]
    rcases Nat.lt_or_ge r.toNat p.rows.length with hlt | hge
    · rw [clone_addr h p hlt, List.getElem?_eq_getElem hlt]
      have hrow : p.rows[r.toNat]? = some p.rows[r.toNat] := List.getElem?_eq_getElem hlt
      show readRowH (clonePositionH h p).1 (h.length + r.toNat) c =
        readRowH h p.rows[r.toNat] c
      rw [clone_readRow h p hrow]
    · rw [clone_addr_none h p hge, List.getElem?_len_le hge]
  · rw [if_neg hr, if_neg hr]

lemma positionExt {p q : Position} (h : ∀ r c, p.board r c = q.board r c) : p = q := by
  cases p
  cases q
  simp only [Position.mk.injEq]
  funext r c
  exact h r c

lemma readBoardH_eval_some {h : Heap} {p : HPos} {r : Int} (hr : 0 ≤ r) {a : Nat}
    (hrow : p.rows[r.toNat]? = some a) (c : Int) :
    (readBoardH h p).board r c = readRowH h a c := by
  show (if 0 ≤ r then
      match p.rows[r.toNat]? with
      | some a => readRowH h a c
      | none => none
    else none) = readRowH h a c
  rw [if_pos hr, hrow]

lemma readBoardH_eval_none {h : Heap} {p : HPos} {r : Int} (hr : 0 ≤ r)
    (hrow : p.rows[r.toNat]? = none) (c : Int) :
    (readBoardH h p).board r c = none := by
  show (if 0 ≤ r then
      match p.rows[r.toNat]? with
      | some a => readRowH h a c
      | none => none
    else none) = none
  rw [if_pos hr, hrow]

lemma readBoardH_eval_neg {h : Heap} {p : HPos} {r : Int} (hr : ¬ 0 ≤ r) (c : Int) :
    (readBoardH h p).board r c = none := by
  show (if 0 ≤ r then
      match p.rows[r.toNat]? with
      | some a => readRowH h a c
      | none => none
    else none) = none
  rw [if_neg hr]

lemma readRowH_writeCell_self_at {h : Heap} {a : Nat} (ha : a < h.length) (c : Int)
    (v : Option Piece) (c' : Int) :
    readRowH (writeCell h a c v) a c' = if c' = c then v else readRowH h a c' := by
  rw [readRowH_writeCell_self ha]

lemma readRowH_writeCell_ne_at {h : Heap} {a a' : Nat} (hne : a ≠ a') (c : Int)
    (v : Option Piece) (c' : Int) :
    readRowH (writeCell h a' c v) a c' = readRowH h a c' := by
  rw [readRowH_writeCell_ne hne]

lemma clone_readRow_at (h : Heap) (p : HPos) {i : Nat} {a : Nat}
    (hrow : p.rows[i]? = some a) (c : Int) :
    readRowH (clonePositionH h p).1 (h.length + i) c = readRowH h a c := by
  rw [clone_readRow h p hrow]

lemma applyMove_eval (position : Position) (mv : Move) (r c : Int) :
    (applyMove position mv).board r c =
      if r = mv.toSq.r ∧ c = mv.toSq.c then
        (match position.board mv.fromSq.r mv.fromSq.c with
         | some pc =>
             if pc.type = PieceType.P ∧ mv.promotion = true then
               some { color := pc.color, type := PieceType.Q }
             else some pc
         | none => none)
      else if r = mv.fromSq.r ∧ c = mv.fromSq.c then none
      else position.board r c := rfl

lemma applyMoveH_snd (h : Heap) (p : HPos) (mv : Move) :
    (applyMoveH h p mv).2 = (clonePositionH h p).2 := rfl

lemma applyMoveH_heap (h : Heap) (p : HPos) (mv : Move) :
    (applyMoveH h p mv).1 =
      writeCell
        (writeCell (clonePositionH h p).1
          (rowAddr (clonePositionH h p).2 mv.fromSq.r ((clonePositionH h p).1.length))
          mv.fromSq.c none)
        (rowAddr (clonePositionH h p).2 mv.toSq.r ((clonePositionH h p).1.length))
        mv.toSq.c
        (match (readBoardH (clonePositionH h p).1
            (clonePositionH h p).2).board mv.fromSq.r mv.fromSq.c with
         | some pc =>
             if pc.type = PieceType.P ∧ mv.promotion = true then
               some { color := pc.color, type := PieceType.Q }
             else some pc
         | none => none) := rfl

lemma applyMoveH_refines (h : Heap) (p : HPos) (mv : Move)
    (_hwf : ∀ a ∈ p.rows, a < h.length) (hlen : p.rows.length = 8)
    (hfrom : inside mv.fromSq.r mv.fromSq.c) (hto : inside mv.toSq.r mv.toSq.c) :
    readBoardH (applyMoveH h p mv).1 (applyMoveH h p mv).2 =
      applyMove (readBoardH h p) mv := by
  obtain ⟨hf0, hf8, -, -⟩ := hfrom
  obtain ⟨ht0, ht8, -, -⟩ := hto
  have hfrN : mv.fromSq.r.toNat < p.rows.length := by omega
  have htrN : mv.toSq.r.toNat < p.rows.length := by omega
  have hcl : (clonePositionH h p).1.length = h.length + 8 := by
    rw [clone_fst_length, hlen]
  have hw1 : (writeCell (clonePositionH h p).1 (h.length + mv.fromSq.r.toNat)
      mv.fromSq.c none).length = h.length + 8 := by
    rw [length_writeCell, hcl]
  apply positionExt
  intro r c
  rw [applyMoveH_heap, applyMoveH_snd, rowAddr_clone_eq h p hf0 hfrN,
    rowAddr_clone_eq h p ht0 htrN, clone_readBoard, applyMove_eval]
  by_cases hr : 0 ≤ r
  · rcases Nat.lt_or_ge r.toNat p.rows.length with hlt | hge
    · rw [readBoardH_eval_some hr (clone_addr h p hlt)]
      by_cases hit : r.toNat = mv.toSq.r.toNat
      · rw [hit, readRowH_writeCell_self_at (by rw [hw1]; omega)]
        by_cases hc : c = mv.toSq.c
        · rw [if_pos hc, if_pos ⟨by omega, hc⟩]
        · rw [if_neg hc, if_neg (fun hh => hc hh.2)]
          by_cases hif2 : r = mv.fromSq.r ∧ c = mv.fromSq.c
          · rw [if_pos hif2,
              show mv.toSq.r.toNat = mv.fromSq.r.toNat from by
                have := hif2.1; omega,
              readRowH_writeCell_self_at (by rw [hcl]; omega), if_pos hif2.2]
          · rw [if_neg hif2]
            by_cases hfr2 : mv.toSq.r.toNat = mv.fromSq.r.toNat
            · have hcfc : ¬ c = mv.fromSq.c := fun hcc => hif2 ⟨by omega, hcc⟩
              rw [hfr2, readRowH_writeCell_self_at (by rw [hcl]; omega), if_neg hcfc,
                clone_readRow_at h p (List.getElem?_eq_getElem hfrN),
                readBoardH_eval_some hr
                  (show p.rows[r.toNat]? = some _ by
                    rw [hit, hfr2]; exact List.getElem?_eq_getElem hfrN)]
            · rw [readRowH_writeCell_ne_at (by omega),
                clone_readRow_at h p (List.getElem?_eq_getElem htrN),
                readBoardH_eval_some hr
                  (show p.rows[r.toNat]? = some _ by
                    rw [hit]; exact List.getElem?_eq_getElem htrN)]
      · rw [if_neg (fun hh => hit (by have := hh.1; omega)),
          readRowH_writeCell_ne_at (by omega)]
        by_cases hif : r.toNat = mv.fromSq.r.toNat
        · rw [hif, readRowH_writeCell_self_at (by rw [hcl]; omega)]
          by_cases hc : c = mv.fromSq.c
          · rw [if_pos hc, if_pos ⟨by omega, hc⟩]
          · rw [if_neg hc, if_neg (fun hh => hc hh.2),
              clone_readRow_at h p (List.getElem?_eq_getElem hfrN),
              readBoardH_eval_some hr
                (show p.rows[r.toNat]? = some _ by
                  rw [hif]; exact List.getElem?_eq_getElem hfrN)]
        · rw [readRowH_writeCell_ne_at (by omega),
            if_neg (fun hh => hif (by have := hh.1; omega)),
            clone_readRow_at h p (List.getElem?_eq_getElem hlt),
            readBoardH_eval_some hr (List.getElem?_eq_getElem hlt)]
    · rw [readBoardH_eval_none hr (clone_addr_none h p hge),
        if_neg (fun hh => by have := hh.1; omega),
        if_neg (fun hh => by have := hh.1; omega),
        readBoardH_eval_none hr (List.getElem?_len_le hge)]
  · rw [readBoardH_eval_neg hr,
      if_neg (fun hh => by have := hh.1; omega),
      if_neg (fun hh => by have := hh.1; omega),
      readBoardH_eval_neg hr]

lemma heapExt_checkFold (p : HPos) (turn : Color) :
    ∀ (ms : List Move) (acc : Heap × List Move),
      HeapExt acc.1 (ms.foldl (fun acc2 mv =>
        let res := wouldLeaveKingInCheckH acc2.1 p mv turn
        (res.1, if res.2 = false then acc2.2 ++ [mv] else acc2.2)) acc).1 := by
  intro ms
  induction ms with
  | nil => intro acc; exact heapExt_refl _
  | cons mv ms ih =>
    intro acc
    rw [List.foldl_cons]
    exact heapExt_trans (heapExt_applyMoveH acc.1 p mv)
      (ih ((wouldLeaveKingInCheckH acc.1 p mv turn).1,
        if (wouldLeaveKingInCheckH acc.1 p mv turn).2 = false then acc.2 ++ [mv]
        else acc.2))

lemma heapExt_legalStepH (p : HPos) (turn : Color) (acc : Heap × List Move) (sq : Square) :
    HeapExt acc.1 (legalStepH p turn acc sq).1 := by
  simp only [legalStepH]
  split
  · exact heapExt_refl _
  · split
    · exact heapExt_checkFold p turn _ acc
    · exact heapExt_refl _

lemma heapExt_generateLegalMovesH (h : Heap) (p : HPos) (turn : Color) :
    HeapExt h (generateLegalMovesH h p turn).1 := by
  have hfold : ∀ (sqs : List Square) (acc : Heap × List Move),
      HeapExt acc.1 (sqs.foldl (legalStepH p turn) acc).1 := by
    intro sqs
    induction sqs with
    | nil => intro acc; exact heapExt_refl _
    | cons sq sqs ih =>
      intro acc
      rw [List.foldl_cons]
      exact heapExt_trans (heapExt_legalStepH p turn acc sq) (ih _)
  exact hfold allSquares (h, [])

/-- C10: in the heap model of the source's array mutation, applyMove,
makeMove and generateLegalMoves leave every square of the argument position
unchanged (the argument's rows are never written), the position returned by
applyMove reads back exactly as the pure applyMove of the argument board,
and makeMove's notation is computed from the pre-move board. -/
theorem heap_frame_property (h : Heap) (p : HPos) (mv : Move) (turn : Color)
    (hwf : ∀ a ∈ p.rows, a < h.length) (hlen : p.rows.length = 8)
    (hfrom : inside mv.fromSq.r mv.fromSq.c) (hto : inside mv.toSq.r mv.toSq.c) :
    readBoardH (applyMoveH h p mv).1 p = readBoardH h p
    ∧ readBoardH (applyMoveH h p mv).1 (applyMoveH h p mv).2 =
        applyMove (readBoardH h p) mv
    ∧ readBoardH (makeMoveH h p mv).1.1 p = readBoardH h p
    ∧ (makeMoveH h p mv).2 = (makeMove (readBoardH h p) mv).2
    ∧ readBoardH (generateLegalMovesH h p turn).1 p = readBoardH h p :=
  ⟨readBoardH_heapExt (heapExt_applyMoveH h p mv) hwf,
   applyMoveH_refines h p mv hwf hlen hfrom hto,
   readBoardH_heapExt (heapExt_applyMoveH h p mv) hwf,
   rfl,
   readBoardH_heapExt (heapExt_generateLegalMovesH h p turn) hwf⟩

/-- Witness for C10: moving the demo king from e1 to e2 on the demo heap
leaves the original position's board unchanged, and a full legal-move
generation pass does too. -/
theorem heap_frame_property_witness :
    (∀ a ∈ demoHPos.rows, a < demoHeap.length) ∧
    demoHPos.rows.length = 8 ∧
    inside demoMove.fromSq.r demoMove.fromSq.c ∧
    inside demoMove.toSq.r demoMove.toSq.c ∧
    readBoardH (applyMoveH demoHeap demoHPos demoMove).1 demoHPos =
      readBoardH demoHeap demoHPos ∧
    readBoardH (generateLegalMovesH demoHeap demoHPos Color.w).1 demoHPos =
      readBoardH demoHeap demoHPos :=
  ⟨by decide, by decide, by decide, by decide,
   (heap_frame_property demoHeap demoHPos demoMove Color.w (by decide) (by decide)
     (by decide) (by decide)).1,
   (heap_frame_property demoHeap demoHPos demoMove Color.w (by decide) (by decide)
     (by decide) (by decide)).2.2.2.2⟩
